import Mathlib

/-!
Verification development for the `qb` fluent SQL builder.

The file shallowly embeds the repository's code in Lean:

* `Builder` and every clause method (`Insert`, `Values`, `Set`, `Where`,
  `In`, `Eq`, ...) are translated from `src/builder.go`.
* The `Query` accumulator and the `Adapter` abstraction are declared and
  used by `src/builder.go` but their defining Go files are not part of the
  sources; those definitions are modelled from the specification, as marked
  in their doc comments.

Go maps iterate in an unspecified order; map-taking methods (`Values`,
`Set`) are modelled over association lists, so theorems quantifying over
all lists cover every possible iteration order.  Mutation is modelled by
explicit state passing: a Go method that mutates its receiver and returns
a value becomes a Lean function returning the new state paired with the
value.
-/

set_option maxHeartbeats 1000000

namespace QB

/-- Opaque parameter values bound into a query.  Go passes them as
empty-interface values; integers and strings cover every value the claims
mention, and all theorems are parametric in the values anyway. -/
inductive Value where
  | int (n : Int) : Value
  | str (s : String) : Value
deriving DecidableEq

/-- Modelled from the spec: the `Query` leaf component, an ordered
accumulator of clause fragments and an ordered accumulator of bound
values (its Go source file is missing from src/; only builder.go, its
caller, is present). -/
structure Query where
  clauses : List String
  bindings : List Value
deriving DecidableEq

/-- Modelled from the spec: a `Query` is created empty. -/
def NewQuery : Query := ⟨[], []⟩

/-- Modelled from the spec: `AddClause` appends the fragment verbatim to
the clause sequence. -/
def Query.AddClause (q : Query) (fragment : String) : Query :=
  { q with clauses := q.clauses ++ [fragment] }

/-- Modelled from the spec: `AddBinding` appends each value, in argument
order, to the binding sequence (zero or more values; no-op on empty). -/
def Query.AddBinding (q : Query) (values : List Value) : Query :=
  { q with bindings := q.bindings ++ values }

/-- Faithful model of Go `strings.Join`: pieces joined by `sep`, with no
leading or trailing separator. -/
def joinWith (sep : String) : List String → String
  | [] => ""
  | [x] => x
  | x :: y :: rest => x ++ sep ++ joinWith sep (y :: rest)

/-- Modelled from the spec: `SQL()` renders all clauses joined by a single
space, in insertion order. -/
def Query.SQL (q : Query) : String := joinWith " " q.clauses

/-- Modelled from the spec: `Bindings()` returns the binding sequence
in insertion order, as-is. -/
def Query.Bindings (q : Query) : List Value := q.bindings

/-- Dialect variants of the adapter: a generic static-placeholder variant
and a numbered variant (spec section 3). -/
inductive Dialect where
  | generic : Dialect
  | numbered : Dialect
deriving DecidableEq

/-- Modelled from the spec: adapter state is the escaping flag and the
placeholder counter, tagged by the dialect variant. -/
structure Adapter where
  dialect : Dialect
  escaping : Bool
  placeholderCount : Nat
deriving DecidableEq

/-- Decimal digit character (valid for d < 10). -/
def digitChar (d : Nat) : Char := Char.ofNat (48 + d)

/-- Fuel-driven decimal rendering helper. -/
def natDigitsAux : Nat → Nat → List Char
  | 0, _ => []
  | fuel + 1, n =>
    if n < 10 then [digitChar n]
    else natDigitsAux fuel (n / 10) ++ [digitChar (n % 10)]

/-- Decimal rendering of a natural number as a list of digit characters. -/
def natDigits (n : Nat) : List Char := natDigitsAux (n + 1) n

/-- Characters of the numbered-dialect placeholder token for counter
value `n`, i.e. a dollar sign followed by `n` in decimal. -/
def tokChars (n : Nat) : List Char := '$' :: natDigits n

/-- Numbered-dialect placeholder token for counter value `n`. -/
def tokStr (n : Nat) : String := ⟨tokChars n⟩

/-- Position of the first dot in a character list: `some (p, q)` when the
list is `p ++ dot ++ q` with `p` dot-free, `none` when there is no dot. -/
def splitFirstDot : List Char → Option (List Char × List Char)
  | [] => none
  | c :: rest =>
    if c = '.' then some ([], rest)
    else
      match splitFirstDot rest with
      | some (p, q) => some (c :: p, q)
      | none => none

/-- Modelled from the spec: `Escape` wraps the identifier in double quotes
when the escaping flag is on and returns it unchanged when off; an
identifier containing a dot keeps the prefix and the dot verbatim and only
the segment after the (first) dot is quoted. -/
def Adapter.Escape (a : Adapter) (identifier : String) : String :=
  if a.escaping then
    match splitFirstDot identifier.data with
    | some (p, q) => ⟨p ++ '.' :: '\"' :: (q ++ ['\"'])⟩
    | none => "\"" ++ identifier ++ "\""
  else identifier

/-- Modelled from the spec: `EscapeAll` applies `Escape` elementwise,
preserving order. -/
def Adapter.EscapeAll (a : Adapter) (identifiers : List String) : List String :=
  identifiers.map a.Escape

/-- Modelled from the spec: `Placeholder` returns a static `?` token with
no state change for the generic dialect; for the numbered dialect it
increments the counter first and returns a token embedding the new counter
value (dollar sign + counter). -/
def Adapter.Placeholder (a : Adapter) : Adapter × String :=
  match a.dialect with
  | Dialect.generic => (a, "?")
  | Dialect.numbered =>
    ({ a with placeholderCount := a.placeholderCount + 1 },
     tokStr (a.placeholderCount + 1))

/-- Helper: emit `n` placeholder tokens by repeated calls to the
single-token form, threading the adapter state. -/
def Adapter.phN : Adapter → Nat → Adapter × List String
  | a, 0 => (a, [])
  | a, n + 1 =>
    let s1 := a.Placeholder
    let s2 := s1.1.phN n
    (s2.1, s1.2 :: s2.2)

/-- Modelled from the spec: `Placeholders` returns one token per value,
each obtained by the single-value form (so the counter semantics are
preserved positionally). -/
def Adapter.Placeholders (a : Adapter) (values : List Value) : Adapter × List String :=
  a.phN values.length

/-- Modelled from the spec: `SetEscaping` sets the escaping flag. -/
def Adapter.SetEscaping (a : Adapter) (escaping : Bool) : Adapter :=
  { a with escaping := escaping }

/-- Modelled from the spec: `Escaping` reads the escaping flag. -/
def Adapter.Escaping (a : Adapter) : Bool := a.escaping

/-- Modelled from the spec: `Reset` zeroes the placeholder counter only. -/
def Adapter.Reset (a : Adapter) : Adapter :=
  { a with placeholderCount := 0 }

/-- Modelled from the spec: the dialect selector chooses the numbered
variant for "postgres" and falls back to the generic static-placeholder
variant for every other selector (the call site in `NewBuilder`
(src/builder.go:22) shows an infallible constructor signature, so the
spec's permitted fallback behaviour, not fail-fast, is modelled). -/
def NewAdapter (driver : String) : Adapter :=
  if driver = "postgres" then ⟨Dialect.numbered, false, 0⟩
  else ⟨Dialect.generic, false, 0⟩

/-- Log flag constant from src/builder.go:11. -/
def LDefault : Nat := 0

/-- Log flag constant from src/builder.go:13. -/
def LQuery : Nat := 1

/-- Log flag constant from src/builder.go:15. -/
def LBindings : Nat := 2

/-- Builder state from src/builder.go:30 (the `logger` field performs I/O
only and carries no state the code reads, so it is not modelled). -/
structure Builder where
  query : Query
  adapter : Adapter
  logFlags : Nat
deriving DecidableEq

/-- NewBuilder, src/builder.go:19. -/
def NewBuilder (driver : String) : Builder :=
  ⟨NewQuery, NewAdapter driver, LDefault⟩

/-- Builder.SetEscaping, src/builder.go:48. -/
def Builder.SetEscaping (b : Builder) (escaping : Bool) : Builder :=
  { b with adapter := b.adapter.SetEscaping escaping }

/-- Builder.Escaping, src/builder.go:53. -/
def Builder.Escaping (b : Builder) : Bool :=
  b.adapter.Escaping

/-- Builder.Reset, src/builder.go:63: fresh query, adapter counter reset. -/
def Builder.Reset (b : Builder) : Builder :=
  { b with query := NewQuery, adapter := b.adapter.Reset }

/-- Builder.Query, src/builder.go:70: returns the accumulated query and
resets the builder (logging branches write to the logger only and change
no modelled state). -/
def Builder.Query (b : Builder) : Builder × Query :=
  (b.Reset, b.query)

/-- Builder.Insert, src/builder.go:86. -/
def Builder.Insert (b : Builder) (table : String) : Builder :=
  { b with query := b.query.AddClause ("INSERT INTO " ++ b.adapter.Escape table) }

/-- Builder.Values, src/builder.go:93: per map entry, escape the key,
record the value and append it as a binding; then add the key-list clause
and a VALUES clause with one placeholder per value. -/
def Builder.Values (b : Builder) (m : List (String × Value)) : Builder :=
  let keys := m.map (fun kv => b.adapter.Escape kv.1)
  let values := m.map (fun kv => kv.2)
  let q1 := b.query.AddBinding values
  let q2 := q1.AddClause ("(" ++ joinWith ", " keys ++ ")")
  let s := b.adapter.phN values.length
  let q3 := q2.AddClause ("VALUES (" ++ joinWith ", " s.2 ++ ")")
  { b with query := q3, adapter := s.1 }

/-- Builder.Update, src/builder.go:124. -/
def Builder.Update (b : Builder) (table : String) : Builder :=
  { b with query := b.query.AddClause ("UPDATE " ++ b.adapter.Escape table) }

/-- Faithful model of Go `strings.Split(s, ".")` at the character level:
splits at every dot; the empty input yields one empty piece. -/
def splitOnDot : List Char → List (List Char)
  | [] => [[]]
  | c :: rest =>
    if c = '.' then [] :: splitOnDot rest
    else
      match splitOnDot rest with
      | [] => [[c]]
      | p :: ps => (c :: p) :: ps

/-- Key rendering of Builder.Set, src/builder.go:134: a key containing a
dot becomes first piece + dot + escaped second piece (pieces beyond the
second are dropped); otherwise the key is escaped whole. -/
def setKeyStr (a : Adapter) (k : String) : String :=
  if k.data.contains '.' then
    let kp := splitOnDot k.data
    String.mk (kp.headD []) ++ "." ++ a.Escape ⟨(kp.drop 1).headD []⟩
  else a.Escape k

/-- Loop body of Builder.Set, src/builder.go:133: renders one
`key = placeholder` fragment per entry, threading the adapter. -/
def setLoop (a : Adapter) : List (String × Value) → Adapter × List String
  | [] => (a, [])
  | kv :: rest =>
    let k1 := setKeyStr a kv.1
    let s1 := a.Placeholder
    let s2 := setLoop s1.1 rest
    (s2.1, (k1 ++ " = " ++ s1.2) :: s2.2)

/-- Builder.Set, src/builder.go:131: one `key = placeholder` fragment per
entry joined by commas after SET, one binding appended per entry in the
same order. -/
def Builder.Set (b : Builder) (m : List (String × Value)) : Builder :=
  let s := setLoop b.adapter m
  let q1 := b.query.AddBinding (m.map (fun kv => kv.2))
  { b with adapter := s.1, query := q1.AddClause ("SET " ++ joinWith ", " s.2) }

/-- Builder.Delete, src/builder.go:150. -/
def Builder.Delete (b : Builder) (table : String) : Builder :=
  { b with query := b.query.AddClause ("DELETE FROM " ++ b.adapter.Escape table) }

/-- Builder.Select, src/builder.go:156 (columns are joined unescaped). -/
def Builder.Select (b : Builder) (columns : List String) : Builder :=
  { b with query := b.query.AddClause ("SELECT " ++ joinWith ", " columns) }

/-- Builder.Where, src/builder.go:240: an empty expression is a complete
no-op (the bindings are discarded too); otherwise one WHERE clause is
added and all bindings are appended. -/
def Builder.Where (b : Builder) (expression : String) (bindings : List Value) : Builder :=
  if expression = "" then b
  else { b with query := (b.query.AddClause ("WHERE " ++ expression)).AddBinding bindings }

/-- Builder.OrderBy, src/builder.go:250. -/
def Builder.OrderBy (b : Builder) (expressions : List String) : Builder :=
  { b with query := b.query.AddClause ("ORDER BY " ++ joinWith ", " expressions) }

/-- Builder.GroupBy, src/builder.go:256. -/
def Builder.GroupBy (b : Builder) (columns : List String) : Builder :=
  { b with query := b.query.AddClause ("GROUP BY " ++ joinWith ", " columns) }

/-- Builder.Having, src/builder.go:262. -/
def Builder.Having (b : Builder) (expressions : List String) : Builder :=
  { b with query := b.query.AddClause ("HAVING " ++ joinWith ", " expressions) }

/-- Decimal rendering of an integer (Go `%d`). -/
def intChars (i : Int) : List Char :=
  if i < 0 then '-' :: natDigits i.natAbs else natDigits i.toNat

/-- Builder.Limit, src/builder.go:268: note the clause prints `count`
before `offset`. -/
def Builder.Limit (b : Builder) (offset count : Int) : Builder :=
  { b with query :=
      b.query.AddClause ("LIMIT " ++ (⟨intChars count⟩ : String) ++ " OFFSET " ++ ⟨intChars offset⟩) }

/-- Builder.NotIn, src/builder.go:303: appends the values as bindings and
returns a `key NOT IN (tokens)` expression string. -/
def Builder.NotIn (b : Builder) (key : String) (values : List Value) : Builder × String :=
  let q := b.query.AddBinding values
  let s := b.adapter.Placeholders values
  ({ b with query := q, adapter := s.1 },
   b.adapter.Escape key ++ " NOT IN (" ++ joinWith "," s.2 ++ ")")

/-- Builder.In, src/builder.go:309. -/
def Builder.In (b : Builder) (key : String) (values : List Value) : Builder × String :=
  let q := b.query.AddBinding values
  let s := b.adapter.Placeholders values
  ({ b with query := q, adapter := s.1 },
   b.adapter.Escape key ++ " IN (" ++ joinWith "," s.2 ++ ")")

/-- Builder.NotEq, src/builder.go:315. -/
def Builder.NotEq (b : Builder) (key : String) (value : Value) : Builder × String :=
  let q := b.query.AddBinding [value]
  let s := b.adapter.Placeholder
  ({ b with query := q, adapter := s.1 }, b.adapter.Escape key ++ " != " ++ s.2)

/-- Builder.Eq, src/builder.go:321. -/
def Builder.Eq (b : Builder) (key : String) (value : Value) : Builder × String :=
  let q := b.query.AddBinding [value]
  let s := b.adapter.Placeholder
  ({ b with query := q, adapter := s.1 }, b.adapter.Escape key ++ " = " ++ s.2)

/-- Builder.Gt, src/builder.go:327. -/
def Builder.Gt (b : Builder) (key : String) (value : Value) : Builder × String :=
  let q := b.query.AddBinding [value]
  let s := b.adapter.Placeholder
  ({ b with query := q, adapter := s.1 }, b.adapter.Escape key ++ " > " ++ s.2)

/-- Builder.Gte, src/builder.go:333. -/
def Builder.Gte (b : Builder) (key : String) (value : Value) : Builder × String :=
  let q := b.query.AddBinding [value]
  let s := b.adapter.Placeholder
  ({ b with query := q, adapter := s.1 }, b.adapter.Escape key ++ " >= " ++ s.2)

/-- Builder.St, src/builder.go:339. -/
def Builder.St (b : Builder) (key : String) (value : Value) : Builder × String :=
  let q := b.query.AddBinding [value]
  let s := b.adapter.Placeholder
  ({ b with query := q, adapter := s.1 }, b.adapter.Escape key ++ " < " ++ s.2)

/-- Builder.Ste, src/builder.go:345. -/
def Builder.Ste (b : Builder) (key : String) (value : Value) : Builder × String :=
  let q := b.query.AddBinding [value]
  let s := b.adapter.Placeholder
  ({ b with query := q, adapter := s.1 }, b.adapter.Escape key ++ " <= " ++ s.2)

/-- Expression-building operations of src/builder.go that emit
placeholders and append the matching bindings (Eq, NotEq, Gt, Gte, St,
Ste, In, NotIn).  Their rendered strings are passed to `Where` in
realistic usage. -/
inductive Expr where
  | inE (key : String) (values : List Value)
  | notInE (key : String) (values : List Value)
  | eqE (key : String) (value : Value)
  | neqE (key : String) (value : Value)
  | gtE (key : String) (value : Value)
  | gteE (key : String) (value : Value)
  | stE (key : String) (value : Value)
  | steE (key : String) (value : Value)

/-- Evaluate an expression operation: new builder state and the rendered
expression string. -/
def evalExpr (b : Builder) : Expr → Builder × String
  | Expr.inE k vs => b.In k vs
  | Expr.notInE k vs => b.NotIn k vs
  | Expr.eqE k v => b.Eq k v
  | Expr.neqE k v => b.NotEq k v
  | Expr.gtE k v => b.Gt k v
  | Expr.gteE k v => b.Gte k v
  | Expr.stE k v => b.St k v
  | Expr.steE k v => b.Ste k v

/-- Clause-building operations mirroring realistic fluent usage of the
builder: plain clause methods, the map-driven `Values`/`Set`, and `Where`
applied to an expression built by the placeholder-emitting functions. -/
inductive Op where
  | insertOp (table : String)
  | valuesOp (m : List (String × Value))
  | updateOp (table : String)
  | setOp (m : List (String × Value))
  | deleteOp (table : String)
  | selectOp (columns : List String)
  | whereExprOp (e : Expr)
  | whereOp (expression : String)
  | orderByOp (expressions : List String)
  | groupByOp (columns : List String)
  | havingOp (expressions : List String)
  | limitOp (offset count : Int)

/-- Apply one fluent operation to the builder. -/
def applyOp (b : Builder) : Op → Builder
  | Op.insertOp t => b.Insert t
  | Op.valuesOp m => b.Values m
  | Op.updateOp t => b.Update t
  | Op.setOp m => b.Set m
  | Op.deleteOp t => b.Delete t
  | Op.selectOp cols => b.Select cols
  | Op.whereExprOp e =>
    let s := evalExpr b e
    s.1.Where s.2 []
  | Op.whereOp e => b.Where e []
  | Op.orderByOp es => b.OrderBy es
  | Op.groupByOp cs => b.GroupBy cs
  | Op.havingOp es => b.Having es
  | Op.limitOp o c => b.Limit o c

/-- Apply a sequence of fluent operations left to right. -/
def applyOps (b : Builder) (ops : List Op) : Builder :=
  ops.foldl applyOp b

/-- Realistic user input: an identifier or expression string that does not
itself contain the placeholder characters dollar or question mark. -/
def StrClean (s : String) : Prop := '$' ∉ s.data ∧ '?' ∉ s.data

instance (s : String) : Decidable (StrClean s) := by
  unfold StrClean; infer_instance

/-- Cleanliness of an expression operation's identifier. -/
def Expr.Clean : Expr → Prop
  | Expr.inE k _ => StrClean k
  | Expr.notInE k _ => StrClean k
  | Expr.eqE k _ => StrClean k
  | Expr.neqE k _ => StrClean k
  | Expr.gtE k _ => StrClean k
  | Expr.gteE k _ => StrClean k
  | Expr.stE k _ => StrClean k
  | Expr.steE k _ => StrClean k

instance (e : Expr) : Decidable e.Clean := by
  cases e <;> (unfold Expr.Clean; infer_instance)

/-- Cleanliness of a fluent operation: every caller-supplied string is
free of placeholder characters. -/
def Op.Clean : Op → Prop
  | Op.insertOp t => StrClean t
  | Op.valuesOp m => ∀ kv ∈ m, StrClean kv.1
  | Op.updateOp t => StrClean t
  | Op.setOp m => ∀ kv ∈ m, StrClean kv.1
  | Op.deleteOp t => StrClean t
  | Op.selectOp cols => ∀ c ∈ cols, StrClean c
  | Op.whereExprOp e => e.Clean
  | Op.whereOp e => StrClean e
  | Op.orderByOp es => ∀ e ∈ es, StrClean e
  | Op.groupByOp cs => ∀ c ∈ cs, StrClean c
  | Op.havingOp es => ∀ e ∈ es, StrClean e
  | Op.limitOp _ _ => True

instance (op : Op) : Decidable op.Clean := by
  cases op <;> (unfold Op.Clean; infer_instance)

/-- Token string for a digit accumulator collected in reverse. -/
def tokOf (acc : List Char) : String := ⟨'$' :: acc.reverse⟩

/-- Scanner state machine extracting every dollar-sign placeholder token
(a dollar followed by its maximal digit run) from a character list, left
to right.  The second argument is `none` outside a token and `some acc`
while collecting the digits of a token (in reverse). -/
def extractGo : List Char → Option (List Char) → List String
  | [], none => []
  | [], some acc => [tokOf acc]
  | c :: rest, none =>
    if c = '$' then extractGo rest (some []) else extractGo rest none
  | c :: rest, some acc =>
    if c.isDigit then extractGo rest (some (c :: acc))
    else tokOf acc :: (if c = '$' then extractGo rest (some []) else extractGo rest none)

/-- Placeholder substrings of a character list, left to right. -/
def extractPH (cs : List Char) : List String := extractGo cs none

/-- Numbered placeholder tokens for counter values `k+1 .. k+m`. -/
def toksFrom : Nat → Nat → List String
  | _, 0 => []
  | k, m + 1 => tokStr (k + 1) :: toksFrom (k + 1) m

/-- Placeholder tokens appearing in a query's clauses, left to right. -/
def phTokens (q : Query) : List String :=
  (q.clauses.map (fun c => extractPH c.data)).flatten

/-- Question-mark count over a query's clauses. -/
def qmCount (q : Query) : Nat :=
  (q.clauses.map (fun c => c.data.count '?')).sum

/-- Iterated placeholder emission: adapter state after n calls. -/
def iterPH (a : Adapter) : Nat → Adapter
  | 0 => a
  | n + 1 => ((iterPH a n).Placeholder).1

lemma sp_data : (" " : String).data = [' '] := rfl

lemma placeholder_dialect (a : Adapter) : ((a.Placeholder).1).dialect = a.dialect := by
  cases a with
  | mk d e c => cases d <;> rfl

lemma placeholder_escaping (a : Adapter) : ((a.Placeholder).1).escaping = a.escaping := by
  cases a with
  | mk d e c => cases d <;> rfl

lemma iterPH_dialect (a : Adapter) (n : Nat) : (iterPH a n).dialect = a.dialect := by
  induction n with
  | zero => rfl
  | succ n ih => simp [iterPH, placeholder_dialect, ih]

lemma placeholder_numbered {a : Adapter} (h : a.dialect = Dialect.numbered) :
    a.Placeholder = ({ a with placeholderCount := a.placeholderCount + 1 },
      tokStr (a.placeholderCount + 1)) := by
  cases a with
  | mk d e c =>
    simp only at h
    subst h
    rfl

lemma placeholder_generic {a : Adapter} (h : a.dialect = Dialect.generic) :
    a.Placeholder = (a, "?") := by
  cases a with
  | mk d e c =>
    simp only at h
    subst h
    rfl

lemma splitFirstDot_none {cs : List Char} (h : '.' ∉ cs) : splitFirstDot cs = none := by
  induction cs with
  | nil => rfl
  | cons c rest ih =>
    rw [List.mem_cons, not_or] at h
    simp [splitFirstDot, ih h.2, if_neg (Ne.symm h.1)]

lemma splitFirstDot_append {p : List Char} (q : List Char) (h : '.' ∉ p) :
    splitFirstDot (p ++ '.' :: q) = some (p, q) := by
  induction p with
  | nil => simp [splitFirstDot]
  | cons c rest ih =>
    rw [List.mem_cons, not_or] at h
    simp [splitFirstDot, ih h.2, if_neg (Ne.symm h.1)]

lemma splitOnDot_cons_dotfree {x : List Char} (rest : List Char) (h : '.' ∉ x) :
    splitOnDot (x ++ '.' :: rest) = x :: splitOnDot rest := by
  induction x with
  | nil => simp [splitOnDot]
  | cons c cr ih =>
    rw [List.mem_cons, not_or] at h
    rw [List.cons_append]
    simp only [splitOnDot, ih h.2]
    rw [if_neg (Ne.symm h.1)]

lemma contains_of_mem {l : List Char} {c : Char} (h : c ∈ l) : l.contains c = true := by
  rw [List.contains_iff_exists_mem_beq]
  exact ⟨c, h, by simp⟩

/-- C2: for a numbered-dialect adapter, each `Placeholder()` call
increments the counter by exactly one and returns the token embedding the
new counter value; and after N calls followed by `Reset()`, the next call
returns the same token as the very first call on a fresh instance. -/
theorem c2_placeholder_counter (a : Adapter) (h : a.dialect = Dialect.numbered) (N : Nat) :
    (((a.Placeholder).1).placeholderCount = a.placeholderCount + 1 ∧
      (a.Placeholder).2 = tokStr (a.placeholderCount + 1)) ∧
    ((((iterPH a N).Reset).Placeholder).2 = ((NewAdapter "postgres").Placeholder).2 ∧
      ((NewAdapter "postgres").Placeholder).2 = tokStr 1) := by
  refine ⟨⟨?_, ?_⟩, ?_, by decide⟩
  · rw [placeholder_numbered h]
  · rw [placeholder_numbered h]
  · have hd : ((iterPH a N).Reset).dialect = Dialect.numbered := by
      show (iterPH a N).dialect = Dialect.numbered
      rw [iterPH_dialect, h]
    rw [placeholder_numbered hd]
    rfl

/-- Witness for C2: the spec's scenario on a fresh postgres adapter: the
first call yields "$1", the second "$2", and after `Reset()` again "$1". -/
theorem c2_placeholder_counter_witness :
    (NewAdapter "postgres").dialect = Dialect.numbered ∧
    ((NewAdapter "postgres").Placeholder).2 = "$1" ∧
    (((NewAdapter "postgres").Placeholder).1.Placeholder).2 = "$2" ∧
    (((iterPH (NewAdapter "postgres") 2).Reset).Placeholder).2 = "$1" := by
  refine ⟨by decide, by decide, by decide, ?_⟩
  have h := c2_placeholder_counter (NewAdapter "postgres") (by decide) 2
  rw [h.2.1, h.2.2]
  decide

/-- C3: `SQL()` renders the accumulated clauses joined by a single space in
insertion order (none dropped or reordered); in this functional model the
query value is immutable and `SQL` is a function of the clause list alone,
so non-mutation and idempotence hold by construction; the last conjunct
states the clause-list dependence explicitly. -/
theorem c3_sql_join (q : Query) (A B C : String) :
    (((q.AddClause A).AddClause B).AddClause C).clauses = q.clauses ++ [A, B, C] ∧
    Query.SQL ⟨[A, B, C], q.bindings⟩ = A ++ " " ++ B ++ " " ++ C ∧
    (∀ q2 : Query, q2.clauses = q.clauses → q2.SQL = q.SQL) := by
  refine ⟨by simp [Query.AddClause], ?_, ?_⟩
  · apply String.ext
    simp [Query.SQL, joinWith, String.data_append, sp_data]
  · intro q2 h
    simp [Query.SQL, h]

/-- Witness for C3 at a concrete query. -/
theorem c3_sql_join_witness :
    ((((NewQuery.AddClause "SELECT a").AddClause "FROM t").AddClause "WHERE b").clauses
      = ["SELECT a", "FROM t", "WHERE b"]) ∧
    Query.SQL ⟨["SELECT a", "FROM t", "WHERE b"], []⟩ = "SELECT a FROM t WHERE b" := by
  have h := c3_sql_join NewQuery "SELECT a" "FROM t" "WHERE b"
  refine ⟨by rw [h.1]; decide, ?_⟩
  rw [show (NewQuery : Query).bindings = ([] : List Value) from rfl] at h
  rw [h.2.1]
  decide

/-- C4: with escaping off, `Escape` returns the identifier unchanged; with
escaping on, a dot-free identifier is wrapped in double quotes, and a
dotted identifier keeps its prefix and dot verbatim with only the segment
after the dot escaped. -/
theorem c4_escape_dot (a : Adapter) (ident p q dotted : String) :
    (a.escaping = false → a.Escape ident = ident) ∧
    (a.escaping = true → '.' ∉ ident.data → a.Escape ident = "\"" ++ ident ++ "\"") ∧
    (a.escaping = true → '.' ∉ p.data → dotted.data = p.data ++ '.' :: q.data →
      a.Escape dotted = p ++ "." ++ ("\"" ++ q ++ "\"")) := by
  refine ⟨?_, ?_, ?_⟩
  · intro h
    simp [Adapter.Escape, h]
  · intro h hdot
    simp [Adapter.Escape, h, splitFirstDot_none hdot]
  · intro h hdot hsplit
    apply String.ext
    simp [Adapter.Escape, h, hsplit, splitFirstDot_append _ hdot, String.data_append]

/-- Witness for C4 on the spec's example "t.col", plus the escaping-off
and dot-free cases. -/
theorem c4_escape_dot_witness :
    (((NewAdapter "sqlite").SetEscaping true).escaping = true ∧
      '.' ∉ ("t" : String).data ∧ ("t.col" : String).data = ("t" : String).data ++ '.' :: ("col" : String).data) ∧
    ((NewAdapter "sqlite").SetEscaping true).Escape "t.col" = "t." ++ "\"col\"" ∧
    ((NewAdapter "sqlite").SetEscaping true).Escape "col" = "\"col\"" ∧
    (NewAdapter "sqlite").Escape "t.col" = "t.col" := by
  have h := c4_escape_dot ((NewAdapter "sqlite").SetEscaping true) "col" "t" "col" "t.col"
  have h0 := c4_escape_dot (NewAdapter "sqlite") "t.col" "t" "col" "t.col"
  refine ⟨by refine ⟨by decide, by decide, by decide⟩, ?_, ?_, ?_⟩
  · rw [h.2.2 (by decide) (by decide) (by decide)]
    decide
  · rw [h.2.1 (by decide) (by decide)]
    decide
  · exact h0.1 (by decide)

/-- C5: `Builder.Query()` returns the accumulated query intact and leaves
the builder holding a fresh empty query, clauses and bindings reset
together, with the adapter's placeholder counter zeroed so that the next
numbered placeholder is "$1" again. -/
theorem c5_query_lifecycle (b : Builder) :
    (b.Query).2 = b.query ∧
    ((b.Query).1).query.clauses = [] ∧
    ((b.Query).1).query.bindings = [] ∧
    ((b.Query).1).adapter.placeholderCount = 0 ∧
    (b.adapter.dialect = Dialect.numbered →
      ((((b.Query).1).adapter.Placeholder).2 = tokStr 1 ∧ tokStr 1 = "$1")) := by
  refine ⟨rfl, rfl, rfl, rfl, ?_⟩
  intro h
  have hd : ((b.Query).1).adapter.dialect = Dialect.numbered := h
  rw [placeholder_numbered hd]
  exact ⟨rfl, by decide⟩

/-- Witness for C5 on a builder that has accumulated clauses, bindings and
two placeholders. -/
theorem c5_query_lifecycle_witness :
    (let b0 := applyOps (NewBuilder "postgres")
      [Op.insertOp "t", Op.valuesOp [("a", Value.int 1), ("b", Value.int 2)]]
     b0.adapter.dialect = Dialect.numbered ∧
     (b0.Query).2.Bindings = [Value.int 1, Value.int 2] ∧
     ((b0.Query).1).query.bindings = [] ∧
     (((b0.Query).1).adapter.Placeholder).2 = "$1") := by
  intro b0
  have h := c5_query_lifecycle b0
  have h5 := h.2.2.2.2 (by decide)
  refine ⟨by decide, by decide, h.2.2.1, ?_⟩
  rw [h5.1]
  decide

/-- C6: `Adapter.Reset()` zeroes only the placeholder counter: the
escaping flag, the dialect and the behaviour of `Escape` are unchanged. -/
theorem c6_reset_frame (a : Adapter) (s : String) :
    (a.Reset).Escaping = a.Escaping ∧
    (a.Reset).placeholderCount = 0 ∧
    (a.Reset).dialect = a.dialect ∧
    (a.Reset).Escape s = a.Escape s :=
  ⟨rfl, rfl, rfl, rfl⟩

/-- C7: `AddBinding` appends its values in argument order, is a no-op on
the empty list, and `AddBinding(1); AddBinding(2,3)` yields bindings
[1,2,3]. -/
theorem c7_addbinding_append (q : Query) (vs : List Value) :
    (q.AddBinding vs).Bindings = q.Bindings ++ vs ∧
    q.AddBinding [] = q ∧
    ((NewQuery.AddBinding [Value.int 1]).AddBinding [Value.int 2, Value.int 3]).Bindings
      = [Value.int 1, Value.int 2, Value.int 3] := by
  refine ⟨rfl, ?_, by decide⟩
  simp [Query.AddBinding]

/-- C8: an unrecognized dialect selector deterministically falls back to
the generic static-placeholder variant (the behaviour the spec permits as
the alternative to failing fast); it never instantiates the numbered
variant. -/
theorem c8_unknown_dialect (driver : String) (h : driver ≠ "postgres") :
    NewAdapter driver = ⟨Dialect.generic, false, 0⟩ ∧
    ((NewAdapter driver).Placeholder).1 = NewAdapter driver ∧
    ((NewAdapter driver).Placeholder).2 = "?" ∧
    (NewAdapter driver).dialect ≠ Dialect.numbered := by
  have hn : NewAdapter driver = ⟨Dialect.generic, false, 0⟩ := by
    simp [NewAdapter, h]
  refine ⟨hn, ?_, ?_, ?_⟩ <;> rw [hn] <;> decide

/-- Witness for C8 on an unrecognized selector. -/
theorem c8_unknown_dialect_witness :
    ("oracle" : String) ≠ "postgres" ∧ ((NewAdapter "oracle").Placeholder).2 = "?" :=
  ⟨by decide, (c8_unknown_dialect "oracle" (by decide)).2.2.1⟩

/-- C9: `Where("")` is a complete no-op that also discards its bindings;
a non-empty expression adds exactly one "WHERE " clause and appends all
the bindings in order. -/
theorem c9_where_empty (b : Builder) (vs : List Value) (e : String) :
    b.Where "" vs = b ∧
    (e ≠ "" →
      ((b.Where e vs).query.clauses = b.query.clauses ++ ["WHERE " ++ e] ∧
        (b.Where e vs).query.bindings = b.query.bindings ++ vs ∧
        (b.Where e vs).adapter = b.adapter)) := by
  constructor
  · simp [Builder.Where]
  · intro h
    simp [Builder.Where, h, Query.AddClause, Query.AddBinding]

/-- Witness for C9: a concrete empty-expression no-op (bindings dropped)
and a concrete non-empty expression. -/
theorem c9_where_empty_witness :
    ((NewBuilder "postgres").Where "" [Value.int 9] = NewBuilder "postgres") ∧
    ("a = 1" : String) ≠ "" ∧
    ((NewBuilder "postgres").Where "a = 1" [Value.int 1]).query.clauses = ["WHERE a = 1"] := by
  have h := c9_where_empty (NewBuilder "postgres") [Value.int 1] "a = 1"
  have h0 := c9_where_empty (NewBuilder "postgres") [Value.int 9] ""
  refine ⟨h0.1, by decide, ?_⟩
  rw [(h.2 (by decide)).1]
  decide

/-- C10: a `Set` key with two or more dots renders as first segment, dot,
escaped second segment; every segment after the second is dropped from the
SQL text while the value is still appended to the bindings. -/
theorem c10_set_multidot (b : Builder) (x y z k : String) (v : Value)
    (hx : '.' ∉ x.data) (hy : '.' ∉ y.data)
    (hk : k.data = x.data ++ '.' :: (y.data ++ '.' :: z.data)) :
    (b.Set [(k, v)]).query.bindings = b.query.bindings ++ [v] ∧
    (b.Set [(k, v)]).query.clauses = b.query.clauses ++
      ["SET " ++ (x ++ "." ++ b.adapter.Escape y ++ " = " ++ (b.adapter.Placeholder).2)] := by
  have hcont : k.data.contains '.' = true := by
    apply contains_of_mem
    rw [hk]
    simp
  have hsplit : splitOnDot k.data = x.data :: (y.data :: splitOnDot z.data) := by
    rw [hk, splitOnDot_cons_dotfree _ hx, splitOnDot_cons_dotfree _ hy]
  have hkey : setKeyStr b.adapter k = x ++ "." ++ b.adapter.Escape y := by
    simp only [setKeyStr, hcont, if_pos, hsplit]
    rfl
  constructor
  · rfl
  · simp only [Builder.Set, setLoop, Query.AddBinding, Query.AddClause, joinWith, hkey]

lemma digitChar_isDigit {d : Nat} (h : d < 10) : (digitChar d).isDigit = true := by
  interval_cases d <;> decide

lemma natDigitsAux_digits : ∀ fuel n, ∀ c ∈ natDigitsAux fuel n, c.isDigit = true := by
  intro fuel
  induction fuel with
  | zero => intro n c hc; simp [natDigitsAux] at hc
  | succ fuel ih =>
    intro n c hc
    by_cases hn : n < 10
    · simp [natDigitsAux, hn] at hc
      subst hc
      exact digitChar_isDigit hn
    · simp [natDigitsAux, hn] at hc
      rcases hc with hc | hc
      · exact ih _ _ hc
      · subst hc
        exact digitChar_isDigit (Nat.mod_lt _ (by norm_num))

lemma natDigits_digits {n : Nat} {c : Char} (hc : c ∈ natDigits n) : c.isDigit = true :=
  natDigitsAux_digits _ _ _ hc

lemma isDigit_ne_dollar {c : Char} (h : c.isDigit = true) : c ≠ '$' := by
  intro he
  subst he
  exact absurd h (by decide)

lemma isDigit_ne_qm {c : Char} (h : c.isDigit = true) : c ≠ '?' := by
  intro he
  subst he
  exact absurd h (by decide)

/-- Non-digit-start condition for the scanner's right context. -/
def ndHead : List Char → Prop
  | [] => True
  | c :: _ => c.isDigit = false

lemma extractGo_skip {c : Char} (hc : ¬c = '$') (rest : List Char) :
    extractGo (c :: rest) none = extractGo rest none := by
  simp [extractGo, hc]

lemma extractGo_enter (rest : List Char) :
    extractGo ('$' :: rest) none = extractGo rest (some []) := by
  simp [extractGo]

lemma extractGo_clean {xs : List Char} (h : '$' ∉ xs) (ys : List Char) :
    extractGo (xs ++ ys) none = extractGo ys none := by
  induction xs with
  | nil => rfl
  | cons c rest ih =>
    rw [List.mem_cons, not_or] at h
    rw [List.cons_append, extractGo_skip (Ne.symm h.1)]
    exact ih h.2

lemma extractGo_clean_nil {xs : List Char} (h : '$' ∉ xs) : extractGo xs none = [] := by
  have h2 := extractGo_clean h []
  rw [List.append_nil] at h2
  exact h2.trans rfl

lemma extractGo_digits {ds : List Char} (h : ∀ c ∈ ds, c.isDigit = true) (ys : List Char) :
    ∀ acc, extractGo (ds ++ ys) (some acc) = extractGo ys (some (ds.reverse ++ acc)) := by
  induction ds with
  | nil => intro acc; rfl
  | cons d rest ih =>
    intro acc
    have hd : d.isDigit = true := h d (by simp)
    have hrest : ∀ c ∈ rest, c.isDigit = true := fun c hc => h c (by simp [hc])
    rw [List.cons_append,
      show extractGo (d :: (rest ++ ys)) (some acc) = extractGo (rest ++ ys) (some (d :: acc)) by
        simp [extractGo, hd],
      ih hrest (d :: acc)]
    congr 2
    simp

lemma extractGo_close {c : Char} (hc : c.isDigit = false) (rest acc : List Char) :
    extractGo (c :: rest) (some acc) = tokOf acc :: extractGo (c :: rest) none := by
  simp [extractGo, hc]

lemma extract_token {ds : List Char} (hds : ∀ c ∈ ds, c.isDigit = true)
    {ys : List Char} (hys : ndHead ys) :
    extractGo (('$' :: ds) ++ ys) none = (⟨'$' :: ds⟩ : String) :: extractGo ys none := by
  rw [List.cons_append, extractGo_enter, extractGo_digits hds ys []]
  cases ys with
  | nil => simp [extractGo, tokOf]
  | cons c t =>
    have hc : c.isDigit = false := hys
    rw [extractGo_close hc]
    simp [tokOf]

lemma extract_sep {c : Char} (hcd : c.isDigit = false) (hcs : ¬c = '$') :
    ∀ xs st ys, extractGo (xs ++ c :: ys) st = extractGo xs st ++ extractGo ys none := by
  intro xs
  induction xs with
  | nil =>
    intro st ys
    cases st with
    | none => rw [List.nil_append, extractGo_skip hcs]; rfl
    | some acc => rw [List.nil_append, extractGo_close hcd, extractGo_skip hcs]; rfl
  | cons x rest ih =>
    intro st ys
    rw [List.cons_append]
    cases st with
    | none =>
      by_cases hx : x = '$'
      · subst hx
        rw [extractGo_enter, extractGo_enter, ih (some []) ys]
      · rw [extractGo_skip hx, extractGo_skip hx, ih none ys]
    | some acc =>
      by_cases hxd : x.isDigit
      · rw [show extractGo (x :: (rest ++ c :: ys)) (some acc)
              = extractGo (rest ++ c :: ys) (some (x :: acc)) by simp [extractGo, hxd],
          show extractGo (x :: rest) (some acc) = extractGo rest (some (x :: acc)) by
            simp [extractGo, hxd],
          ih (some (x :: acc)) ys]
      · have hxd2 : x.isDigit = false := by simpa using hxd
        rw [extractGo_close hxd2, extractGo_close hxd2]
        by_cases hx : x = '$'
        · subst hx
          rw [extractGo_enter, extractGo_enter, ih (some []) ys]
          rfl
        · rw [extractGo_skip hx, extractGo_skip hx, ih none ys]
          rfl

lemma extract_joinWith (l : List String) :
    extractPH (joinWith " " l).data = (l.map (fun s => extractPH s.data)).flatten := by
  induction l with
  | nil => rfl
  | cons x rest ih =>
    cases rest with
    | nil => simp [joinWith, extractPH]
    | cons y t =>
      rw [show joinWith " " (x :: y :: t) = x ++ " " ++ joinWith " " (y :: t) from rfl,
        show (x ++ " " ++ joinWith " " (y :: t)).data
            = x.data ++ ' ' :: (joinWith " " (y :: t)).data by
          simp [String.data_append, sp_data]]
      show extractGo (x.data ++ ' ' :: (joinWith " " (y :: t)).data) none = _
      rw [extract_sep (by decide) (by decide) x.data none _]
      rw [List.map_cons, List.flatten_cons]
      show extractPH x.data ++ extractPH (joinWith " " (y :: t)).data = _
      rw [ih]

lemma dq_data : ("\"" : String).data = ['\"'] := rfl

lemma dot_data : ("." : String).data = ['.'] := rfl

lemma phN_numbered {a : Adapter} (h : a.dialect = Dialect.numbered) (n : Nat) :
    a.phN n = ({ a with placeholderCount := a.placeholderCount + n },
      toksFrom a.placeholderCount n) := by
  induction n generalizing a with
  | zero => simp [Adapter.phN, toksFrom]
  | succ n ih =>
    simp only [Adapter.phN]
    rw [placeholder_numbered h]
    rw [ih (a := { a with placeholderCount := a.placeholderCount + 1 }) h]
    simp only [toksFrom]
    rw [show a.placeholderCount + 1 + n = a.placeholderCount + (n + 1) by omega]

lemma phN_generic {a : Adapter} (h : a.dialect = Dialect.generic) (n : Nat) :
    a.phN n = (a, List.replicate n "?") := by
  induction n with
  | zero => simp [Adapter.phN]
  | succ n ih =>
    simp only [Adapter.phN]
    rw [placeholder_generic h, ih]
    simp [List.replicate_succ]

lemma toksFrom_split (m : Nat) : ∀ k m', toksFrom k (m + m') = toksFrom k m ++ toksFrom (k + m) m' := by
  induction m with
  | zero => intro k m'; simp [toksFrom]
  | succ m ih =>
    intro k m'
    rw [show m + 1 + m' = (m + m') + 1 by omega]
    rw [toksFrom, toksFrom, ih (k + 1) m']
    rw [show k + 1 + m = k + (m + 1) by omega]
    rfl

lemma toksFrom_length (k m : Nat) : (toksFrom k m).length = m := by
  induction m generalizing k with
  | zero => rfl
  | succ m ih => simp [toksFrom, ih]

lemma toksFrom_getElem : ∀ (m k i : Nat) (hi : i < (toksFrom k m).length),
    (toksFrom k m).get ⟨i, hi⟩ = tokStr (k + i + 1) := by
  intro m
  induction m with
  | zero => intro k i hi; simp [toksFrom] at hi
  | succ m ih =>
    intro k i hi
    cases i with
    | zero => rfl
    | succ i =>
      have hi2 : i < (toksFrom (k + 1) m).length := by
        simp [toksFrom_length] at hi ⊢
        omega
      have := ih (k + 1) i hi2
      rw [show (toksFrom k (m + 1)).get ⟨i + 1, hi⟩ = (toksFrom (k + 1) m).get ⟨i, hi2⟩ from rfl,
        this]
      congr 1
      omega

lemma splitFirstDot_mem : ∀ {cs p q : List Char}, splitFirstDot cs = some (p, q) →
    (∀ c ∈ p, c ∈ cs) ∧ (∀ c ∈ q, c ∈ cs) := by
  intro cs
  induction cs with
  | nil => intro p q h; simp [splitFirstDot] at h
  | cons c rest ih =>
    intro p q h
    by_cases hc : c = '.'
    · simp only [splitFirstDot, if_pos hc] at h
      simp only [Option.some.injEq, Prod.mk.injEq] at h
      obtain ⟨hp, hq⟩ := h
      subst hp
      subst hq
      exact ⟨by simp, fun x hx => List.mem_cons_of_mem _ hx⟩
    · simp only [splitFirstDot, if_neg hc] at h
      cases hsd : splitFirstDot rest with
      | none => rw [hsd] at h; simp at h
      | some pq =>
        obtain ⟨p1, q1⟩ := pq
        rw [hsd] at h
        simp only [Option.some.injEq, Prod.mk.injEq] at h
        obtain ⟨hp, hq⟩ := h
        subst hp
        subst hq
        have hm := ih hsd
        constructor
        · intro x hx
          rcases List.mem_cons.mp hx with h1 | h1
          · simp [h1]
          · exact List.mem_cons_of_mem _ (hm.1 x h1)
        · intro x hx
          exact List.mem_cons_of_mem _ (hm.2 x hx)

lemma escape_not_mem {c : Char} (hcq : c ≠ '\"') (hcd : c ≠ '.')
    {s : String} (h : c ∉ s.data) (a : Adapter) : c ∉ (a.Escape s).data := by
  unfold Adapter.Escape
  by_cases he : a.escaping
  · simp only [he, if_true]
    cases hsd : splitFirstDot s.data with
    | none =>
      rw [String.data_append, String.data_append, dq_data]
      intro hc
      rcases List.mem_append.mp hc with h1 | h1
      · rcases List.mem_append.mp h1 with h2 | h2
        · simp at h2; exact hcq h2
        · exact h h2
      · simp at h1; exact hcq h1
    | some pq =>
      obtain ⟨p, q⟩ := pq
      have hm := splitFirstDot_mem hsd
      intro hc
      rw [show ((⟨p ++ '.' :: '\"' :: (q ++ ['\"'])⟩ : String)).data
          = p ++ '.' :: '\"' :: (q ++ ['\"']) from rfl] at hc
      rcases List.mem_append.mp hc with h1 | h1
      · exact h (hm.1 c h1)
      · rcases List.mem_cons.mp h1 with h2 | h2
        · exact hcd h2
        · rcases List.mem_cons.mp h2 with h3 | h3
          · exact hcq h3
          · rcases List.mem_append.mp h3 with h4 | h4
            · exact h (hm.2 c h4)
            · simp at h4; exact hcq h4
  · simp only [he, if_false]
    exact h

lemma splitOnDot_mem : ∀ {cs p : List Char}, p ∈ splitOnDot cs → ∀ c ∈ p, c ∈ cs := by
  intro cs
  induction cs with
  | nil =>
    intro p hp c hc
    simp [splitOnDot] at hp
    subst hp
    simp at hc
  | cons x rest ih =>
    intro p hp c hc
    by_cases hx : x = '.'
    · simp only [splitOnDot, if_pos hx] at hp
      rcases List.mem_cons.mp hp with h1 | h1
      · subst h1; simp at hc
      · exact List.mem_cons_of_mem _ (ih h1 c hc)
    · simp only [splitOnDot, if_neg hx] at hp
      cases hsd : splitOnDot rest with
      | nil =>
        rw [hsd] at hp
        simp at hp
        subst hp
        simp at hc
        simp [hc]
      | cons p1 ps =>
        rw [hsd] at hp
        rcases List.mem_cons.mp hp with h1 | h1
        · subst h1
          rcases List.mem_cons.mp hc with h2 | h2
          · simp [h2]
          · exact List.mem_cons_of_mem _ (ih (by rw [hsd]; simp) c h2)
        · exact List.mem_cons_of_mem _ (ih (by rw [hsd]; exact List.mem_cons_of_mem _ h1) c hc)

lemma mem_headD {l : List (List Char)} {c : Char} (h : c ∈ l.headD []) : ∃ p ∈ l, c ∈ p := by
  cases l with
  | nil => simp at h
  | cons p ps => exact ⟨p, by simp, h⟩

lemma setKeyStr_not_mem {c : Char} (hcq : c ≠ '\"') (hcd : c ≠ '.')
    {k : String} (h : c ∉ k.data) (a : Adapter) : c ∉ (setKeyStr a k).data := by
  unfold setKeyStr
  by_cases hc : k.data.contains '.'
  · simp only [hc, if_true]
    intro hmem
    rw [String.data_append, String.data_append, dot_data] at hmem
    rcases List.mem_append.mp hmem with h1 | h1
    · rcases List.mem_append.mp h1 with h2 | h2
      · rw [show ((⟨(splitOnDot k.data).headD []⟩ : String)).data
            = (splitOnDot k.data).headD [] from rfl] at h2
        obtain ⟨p, hp, hcp⟩ := mem_headD h2
        exact h (splitOnDot_mem hp c hcp)
      · simp at h2; exact hcd h2
    · have h2 : c ∉ ((⟨((splitOnDot k.data).drop 1).headD []⟩ : String)).data := by
        intro hcm
        rw [show ((⟨((splitOnDot k.data).drop 1).headD []⟩ : String)).data
            = ((splitOnDot k.data).drop 1).headD [] from rfl] at hcm
        obtain ⟨p, hp, hcp⟩ := mem_headD hcm
        exact h (splitOnDot_mem (List.mem_of_mem_drop hp) c hcp)
      exact escape_not_mem hcq hcd h2 a h1
  · simp only [hc, if_false]
    exact escape_not_mem hcq hcd h a

lemma joinWith_not_mem {c : Char} {sep : String} (hsep : c ∉ sep.data) :
    ∀ {l : List String}, (∀ s ∈ l, c ∉ s.data) → c ∉ (joinWith sep l).data := by
  intro l
  induction l with
  | nil => intro _; simp [joinWith]
  | cons x rest ih =>
    intro h
    cases rest with
    | nil => exact h x (by simp)
    | cons y t =>
      rw [show joinWith sep (x :: y :: t) = x ++ sep ++ joinWith sep (y :: t) from rfl,
        String.data_append, String.data_append]
      intro hc
      rcases List.mem_append.mp hc with h1 | h1
      · rcases List.mem_append.mp h1 with h2 | h2
        · exact h x (by simp) h2
        · exact hsep h2
      · exact ih (fun s hs => h s (by simp [hs])) h1

lemma joinWith_count {c : Char} {sep : String} (hsep : c ∉ sep.data) :
    ∀ l : List String, (joinWith sep l).data.count c = (l.map (fun s => s.data.count c)).sum := by
  intro l
  induction l with
  | nil => simp [joinWith]
  | cons x rest ih =>
    cases rest with
    | nil => simp [joinWith]
    | cons y t =>
      rw [show joinWith sep (x :: y :: t) = x ++ sep ++ joinWith sep (y :: t) from rfl,
        String.data_append, String.data_append, List.count_append, List.count_append,
        List.count_eq_zero.mpr hsep, ih]
      simp [Nat.add_assoc]

lemma natDigits_not_mem_dollar (n : Nat) : '$' ∉ natDigits n := by
  intro h
  exact isDigit_ne_dollar (natDigits_digits h) rfl

lemma natDigits_not_mem_qm (n : Nat) : '?' ∉ natDigits n := by
  intro h
  exact isDigit_ne_qm (natDigits_digits h) rfl

lemma intChars_not_mem {c : Char} (hm : c ≠ '-') (hd : c.isDigit = false) (i : Int) :
    c ∉ intChars i := by
  unfold intChars
  by_cases hi : i < 0
  · simp only [hi, if_true]
    intro h
    rcases List.mem_cons.mp h with h1 | h1
    · exact hm h1
    · rw [natDigits_digits h1] at hd; exact absurd hd (by simp)
  · simp only [hi, if_false]
    intro h
    rw [natDigits_digits h] at hd
    exact absurd hd (by simp)

lemma ndHead_nil : ndHead [] := trivial

lemma ndHead_cons {c : Char} {t : List Char} (h : c.isDigit = false) : ndHead (c :: t) := h

lemma extract_prefix_tok {p : List Char} (hp : '$' ∉ p) (n : Nat) :
    extractPH (p ++ tokChars n) = [tokStr n] := by
  show extractGo (p ++ tokChars n) none = _
  rw [extractGo_clean hp,
    show tokChars n = ('$' :: natDigits n) ++ [] by simp [tokChars],
    extract_token (fun c hc => natDigits_digits hc) ndHead_nil]
  rfl

lemma extract_update {x : String} (hx : '$' ∉ x.data) (n : Nat) :
    extractPH (x ++ " = " ++ tokStr n).data = [tokStr n] := by
  rw [String.data_append, String.data_append,
    show (tokStr n).data = tokChars n from rfl]
  apply extract_prefix_tok
  intro hmem
  rcases List.mem_append.mp hmem with h1 | h1
  · exact hx h1
  · revert h1
    decide

lemma extract_tokJoin (sep : String) (c0 : Char) (cr : List Char)
    (hsep : sep.data = c0 :: cr) (hc0d : c0.isDigit = false) (hc0s : ¬c0 = '$')
    (hcr : '$' ∉ cr) :
    ∀ m k (ys : List Char), ndHead ys → '$' ∉ ys →
      extractPH ((joinWith sep (toksFrom k m)).data ++ ys) = toksFrom k m := by
  intro m
  have hsd : '$' ∉ sep.data := by
    rw [hsep]
    intro hmem
    rcases List.mem_cons.mp hmem with h1 | h1
    · exact hc0s h1.symm
    · exact hcr h1
  induction m with
  | zero =>
    intro k ys hnd hys
    show extractGo ((joinWith sep ([] : List String)).data ++ ys) none = _
    rw [show (joinWith sep ([] : List String)).data = [] from rfl, List.nil_append]
    exact extractGo_clean_nil hys
  | succ m ih =>
    intro k ys hnd hys
    cases m with
    | zero =>
      show extractGo ((joinWith sep [tokStr (k + 1)]).data ++ ys) none = _
      rw [show (joinWith sep [tokStr (k + 1)]).data = '$' :: natDigits (k + 1) from rfl,
        show ('$' :: natDigits (k + 1)) ++ ys = ('$' :: natDigits (k + 1)) ++ ys from rfl,
        extract_token (fun c hc => natDigits_digits hc) hnd, extractGo_clean_nil hys]
      rfl
    | succ m2 =>
      show extractGo ((joinWith sep (tokStr (k + 1) :: toksFrom (k + 1) (m2 + 1))).data ++ ys) none
          = _
      rw [show toksFrom (k + 1) (m2 + 1) = tokStr (k + 2) :: toksFrom (k + 2) m2 from rfl,
        show joinWith sep (tokStr (k + 1) :: tokStr (k + 2) :: toksFrom (k + 2) m2)
          = tokStr (k + 1) ++ sep ++ joinWith sep (tokStr (k + 2) :: toksFrom (k + 2) m2) from rfl,
        String.data_append, String.data_append, List.append_assoc, List.append_assoc,
        show (tokStr (k + 1)).data = '$' :: natDigits (k + 1) from rfl]
      have hnd2 : ndHead (sep.data
          ++ ((joinWith sep (tokStr (k + 2) :: toksFrom (k + 2) m2)).data ++ ys)) := by
        rw [hsep]
        exact ndHead_cons hc0d
      rw [extract_token (fun c hc => natDigits_digits hc) hnd2, extractGo_clean hsd]
      have := ih (k + 1) ys hnd hys
      rw [show toksFrom (k + 1) (m2 + 1) = tokStr (k + 2) :: toksFrom (k + 2) m2 from rfl] at this
      show _ :: extractPH ((joinWith sep (tokStr (k + 2) :: toksFrom (k + 2) m2)).data ++ ys) = _
      rw [this]
      rfl

/-- Update fragments produced by the Set loop at a given counter origin. -/
def setUpdates (a : Adapter) : List (String × Value) → Nat → List String
  | [], _ => []
  | kv :: rest, k => (setKeyStr a kv.1 ++ " = " ++ tokStr (k + 1)) :: setUpdates a rest (k + 1)

lemma setUpdates_count (a : Adapter) (n : Nat) :
    ∀ m k, setUpdates { a with placeholderCount := n } m k = setUpdates a m k := by
  intro m
  induction m with
  | nil => intro k; rfl
  | cons kv rest ih =>
    intro k
    simp only [setUpdates, ih]
    rfl

lemma setLoop_numbered {a : Adapter} (h : a.dialect = Dialect.numbered) :
    ∀ m, setLoop a m = ({ a with placeholderCount := a.placeholderCount + m.length },
      setUpdates a m a.placeholderCount) := by
  intro m
  induction m generalizing a with
  | nil => rfl
  | cons kv rest ih =>
    simp only [setLoop]
    rw [placeholder_numbered h,
      ih (a := { a with placeholderCount := a.placeholderCount + 1 }) h, setUpdates_count]
    simp only [setUpdates, List.length_cons]
    rw [show a.placeholderCount + 1 + rest.length = a.placeholderCount + (rest.length + 1) by omega]

lemma setLoop_generic {a : Adapter} (h : a.dialect = Dialect.generic) :
    ∀ m, setLoop a m = (a, m.map (fun kv => setKeyStr a kv.1 ++ " = " ++ "?")) := by
  intro m
  induction m with
  | nil => rfl
  | cons kv rest ih =>
    simp only [setLoop]
    rw [placeholder_generic h, ih]
    simp

lemma extract_setUpdates (a : Adapter) :
    ∀ (m : List (String × Value)) (k : Nat), (∀ kv ∈ m, StrClean kv.1) →
      extractPH (joinWith ", " (setUpdates a m k)).data = toksFrom k m.length := by
  intro m
  induction m with
  | nil => intro k h; rfl
  | cons kv rest ih =>
    intro k h
    have hkey : '$' ∉ (setKeyStr a kv.1).data :=
      setKeyStr_not_mem (by decide) (by decide) (h kv (by simp)).1 a
    cases rest with
    | nil =>
      show extractPH (joinWith ", " [setKeyStr a kv.1 ++ " = " ++ tokStr (k + 1)]).data = _
      rw [show joinWith ", " [setKeyStr a kv.1 ++ " = " ++ tokStr (k + 1)]
          = setKeyStr a kv.1 ++ " = " ++ tokStr (k + 1) from rfl, extract_update hkey]
      rfl
    | cons kv2 rest2 =>
      show extractPH (joinWith ", " ((setKeyStr a kv.1 ++ " = " ++ tokStr (k + 1))
          :: setUpdates a (kv2 :: rest2) (k + 1))).data = _
      rw [show setUpdates a (kv2 :: rest2) (k + 1)
          = (setKeyStr a kv2.1 ++ " = " ++ tokStr (k + 2)) :: setUpdates a rest2 (k + 2)
          from rfl]
      rw [show joinWith ", " ((setKeyStr a kv.1 ++ " = " ++ tokStr (k + 1))
            :: (setKeyStr a kv2.1 ++ " = " ++ tokStr (k + 2)) :: setUpdates a rest2 (k + 2))
          = (setKeyStr a kv.1 ++ " = " ++ tokStr (k + 1)) ++ ", "
            ++ joinWith ", " ((setKeyStr a kv2.1 ++ " = " ++ tokStr (k + 2))
              :: setUpdates a rest2 (k + 2)) from rfl]
      rw [String.data_append, String.data_append, List.append_assoc]
      rw [show ((", " : String)).data ++ (joinWith ", " ((setKeyStr a kv2.1 ++ " = "
              ++ tokStr (k + 2)) :: setUpdates a rest2 (k + 2))).data
          = ',' :: ([' '] ++ (joinWith ", " ((setKeyStr a kv2.1 ++ " = " ++ tokStr (k + 2))
              :: setUpdates a rest2 (k + 2))).data) from rfl]
      show extractGo ((setKeyStr a kv.1 ++ " = " ++ tokStr (k + 1)).data
          ++ ',' :: ([' '] ++ (joinWith ", " ((setKeyStr a kv2.1 ++ " = " ++ tokStr (k + 2))
            :: setUpdates a rest2 (k + 2))).data)) none = _
      rw [extract_sep (by decide) (by decide), extractGo_clean (by decide)]
      have hrest : ∀ x ∈ (kv2 :: rest2), StrClean x.1 :=
        fun x hx => h x (List.mem_cons_of_mem _ hx)
      have := ih (k + 1) hrest
      rw [show setUpdates a (kv2 :: rest2) (k + 1)
          = (setKeyStr a kv2.1 ++ " = " ++ tokStr (k + 2)) :: setUpdates a rest2 (k + 2)
          from rfl] at this
      show extractPH (setKeyStr a kv.1 ++ " = " ++ tokStr (k + 1)).data
          ++ extractPH (joinWith ", " ((setKeyStr a kv2.1 ++ " = " ++ tokStr (k + 2))
            :: setUpdates a rest2 (k + 2))).data = _
      rw [extract_update hkey, this]
      rfl

lemma extractPH_clean {xs : List Char} (h : '$' ∉ xs) : extractPH xs = [] :=
  extractGo_clean_nil h

lemma extract_valuesClause (k m : Nat) :
    extractPH ("VALUES (" ++ joinWith ", " (toksFrom k m) ++ ")").data = toksFrom k m := by
  rw [String.data_append, String.data_append, List.append_assoc]
  show extractGo ((("VALUES (" : String)).data
      ++ ((joinWith ", " (toksFrom k m)).data ++ ((")" : String)).data)) none = _
  rw [extractGo_clean (by decide)]
  exact extract_tokJoin ", " ',' [' '] rfl (by decide) (by decide) (by decide) m k
    ((")" : String)).data (ndHead_cons (by decide)) (by decide)

/-- Alignment invariant for the numbered dialect: the counter equals the
number of accumulated bindings and the placeholder tokens across the
clauses, in order, are exactly dollar-1 .. dollar-n. -/
def AlignedN (b : Builder) : Prop :=
  b.adapter.dialect = Dialect.numbered ∧
  b.adapter.placeholderCount = b.query.bindings.length ∧
  phTokens b.query = toksFrom 0 b.query.bindings.length

/-- Alignment invariant for the generic dialect: the number of `?`
characters across the clauses equals the number of accumulated bindings. -/
def AlignedQ (b : Builder) : Prop :=
  b.adapter.dialect = Dialect.generic ∧
  qmCount b.query = b.query.bindings.length

lemma phTokens_addClause (q : Query) (f : String) :
    phTokens (q.AddClause f) = phTokens q ++ extractPH f.data := by
  simp [phTokens, Query.AddClause]

lemma phTokens_addBinding (q : Query) (vs : List Value) :
    phTokens (q.AddBinding vs) = phTokens q := rfl

lemma qmCount_addClause (q : Query) (f : String) :
    qmCount (q.AddClause f) = qmCount q + f.data.count '?' := by
  simp [qmCount, Query.AddClause]

lemma alignedN_addClause {b : Builder} (hb : AlignedN b) {f : String} (hf : '$' ∉ f.data) :
    AlignedN { b with query := b.query.AddClause f } := by
  obtain ⟨h1, h2, h3⟩ := hb
  refine ⟨h1, h2, ?_⟩
  show phTokens (b.query.AddClause f) = _
  rw [phTokens_addClause, extractPH_clean hf, List.append_nil]
  exact h3

lemma alignedQ_addClause {b : Builder} (hb : AlignedQ b) {f : String} (hf : '?' ∉ f.data) :
    AlignedQ { b with query := b.query.AddClause f } := by
  obtain ⟨h1, h2⟩ := hb
  refine ⟨h1, ?_⟩
  show qmCount (b.query.AddClause f) = _
  rw [qmCount_addClause, List.count_eq_zero.mpr hf, Nat.add_zero]
  exact h2

lemma joined_clean {c : Char} (hc2 : c ∉ ((", " : String)).data) {pre : String}
    (hpre : c ∉ pre.data) {l : List String} (hl : ∀ s ∈ l, c ∉ s.data) :
    c ∉ (pre ++ joinWith ", " l).data := by
  rw [String.data_append]
  intro hc
  rcases List.mem_append.mp hc with h4 | h4
  · exact hpre h4
  · exact joinWith_not_mem hc2 hl h4

lemma alignedN_whereCmp {b : Builder} (hb : AlignedN b) {key : String}
    (hk : StrClean key) (v : Value) (sep : String) (hsep : '$' ∉ sep.data) :
    AlignedN (Builder.Where
      { b with
        query := b.query.AddBinding [v],
        adapter := ((b.adapter.Placeholder)).1 }
      (b.adapter.Escape key ++ sep ++ ((b.adapter.Placeholder)).2) []) := by
  obtain ⟨h1, h2, h3⟩ := hb
  rw [placeholder_numbered h1]
  unfold Builder.Where
  have hne : ¬(b.adapter.Escape key ++ sep ++ tokStr (b.adapter.placeholderCount + 1) = "") := by
    intro he
    have hd2 := congrArg String.data he
    rw [String.data_append] at hd2
    rw [show (tokStr (b.adapter.placeholderCount + 1)).data
        = '$' :: natDigits (b.adapter.placeholderCount + 1) from rfl] at hd2
    simp at hd2
  rw [if_neg hne]
  refine ⟨h1, ?_, ?_⟩
  · show b.adapter.placeholderCount + 1
        = (((b.query.AddBinding [v]).AddClause _).AddBinding []).bindings.length
    simp [Query.AddBinding, Query.AddClause, h2]
  · show phTokens (((b.query.AddBinding [v]).AddClause _).AddBinding [])
        = toksFrom 0 (((b.query.AddBinding [v]).AddClause _).AddBinding []).bindings.length
    rw [show phTokens (((b.query.AddBinding [v]).AddClause ("WHERE " ++ (b.adapter.Escape key
          ++ sep ++ tokStr (b.adapter.placeholderCount + 1)))).AddBinding [])
        = phTokens ((b.query.AddBinding [v]).AddClause ("WHERE " ++ (b.adapter.Escape key
          ++ sep ++ tokStr (b.adapter.placeholderCount + 1)))) from rfl]
    rw [phTokens_addClause, phTokens_addBinding]
    have hfrag : extractPH ("WHERE " ++ (b.adapter.Escape key ++ sep
        ++ tokStr (b.adapter.placeholderCount + 1))).data
        = [tokStr (b.adapter.placeholderCount + 1)] := by
      rw [String.data_append, String.data_append, String.data_append,
        show (tokStr (b.adapter.placeholderCount + 1)).data
          = tokChars (b.adapter.placeholderCount + 1) from rfl,
        ← List.append_assoc, ← List.append_assoc]
      apply extract_prefix_tok
      intro hmem
      rcases List.mem_append.mp hmem with h4 | h4
      · rcases List.mem_append.mp h4 with h5 | h5
        · revert h5; decide
        · exact escape_not_mem (by decide) (by decide) hk.1 b.adapter h5
      · exact hsep h4
    rw [hfrag, h3, h2]
    have hlen : (((b.query.AddBinding [v]).AddClause ("WHERE " ++ (b.adapter.Escape key
        ++ sep ++ tokStr (b.query.bindings.length + 1)))).AddBinding []).bindings.length
        = b.query.bindings.length + 1 := by
      simp [Query.AddBinding, Query.AddClause]
    rw [hlen, toksFrom_split b.query.bindings.length 0 1, Nat.zero_add]
    rfl

lemma alignedN_whereIn {b : Builder} (hb : AlignedN b) {key : String}
    (hk : StrClean key) (vs : List Value) (lit : String) (hlit : '$' ∉ lit.data) :
    AlignedN (Builder.Where
      { b with
        query := b.query.AddBinding vs,
        adapter := ((b.adapter.Placeholders vs)).1 }
      (b.adapter.Escape key ++ lit ++ joinWith "," ((b.adapter.Placeholders vs)).2 ++ ")") []) := by
  obtain ⟨h1, h2, h3⟩ := hb
  rw [show b.adapter.Placeholders vs = b.adapter.phN vs.length from rfl, phN_numbered h1]
  unfold Builder.Where
  have hne : ¬(b.adapter.Escape key ++ lit
      ++ joinWith "," (toksFrom b.adapter.placeholderCount vs.length) ++ ")" = "") := by
    intro he
    have hd2 := congrArg String.data he
    rw [String.data_append] at hd2
    simp at hd2
  rw [if_neg hne]
  refine ⟨h1, ?_, ?_⟩
  · show b.adapter.placeholderCount + vs.length
        = (((b.query.AddBinding vs).AddClause _).AddBinding []).bindings.length
    simp [Query.AddBinding, Query.AddClause, h2]
  · show phTokens (((b.query.AddBinding vs).AddClause _).AddBinding [])
        = toksFrom 0 (((b.query.AddBinding vs).AddClause _).AddBinding []).bindings.length
    rw [show phTokens (((b.query.AddBinding vs).AddClause ("WHERE " ++ (b.adapter.Escape key
          ++ lit ++ joinWith "," (toksFrom b.adapter.placeholderCount vs.length) ++ ")"))).AddBinding [])
        = phTokens ((b.query.AddBinding vs).AddClause ("WHERE " ++ (b.adapter.Escape key
          ++ lit ++ joinWith "," (toksFrom b.adapter.placeholderCount vs.length) ++ ")"))) from rfl]
    rw [phTokens_addClause, phTokens_addBinding]
    have hfrag : extractPH ("WHERE " ++ (b.adapter.Escape key ++ lit
        ++ joinWith "," (toksFrom b.adapter.placeholderCount vs.length) ++ ")")).data
        = toksFrom b.adapter.placeholderCount vs.length := by
      rw [String.data_append, String.data_append, String.data_append, String.data_append,
        List.append_assoc, List.append_assoc]
      show extractGo ((("WHERE " : String)).data ++ ((b.adapter.Escape key).data
          ++ (lit.data ++ ((joinWith "," (toksFrom b.adapter.placeholderCount vs.length)).data
            ++ ((")" : String)).data)))) none = _
      rw [extractGo_clean (by decide),
        extractGo_clean (escape_not_mem (by decide) (by decide) hk.1 b.adapter),
        extractGo_clean hlit]
      exact extract_tokJoin "," ',' [] rfl (by decide) (by decide) (by decide) vs.length
        b.adapter.placeholderCount ((")" : String)).data (ndHead_cons (by decide)) (by decide)
    rw [hfrag, h3, h2]
    have hlen : (((b.query.AddBinding vs).AddClause ("WHERE " ++ (b.adapter.Escape key ++ lit
        ++ joinWith "," (toksFrom b.query.bindings.length vs.length) ++ ")"))).AddBinding
          []).bindings.length
        = b.query.bindings.length + vs.length := by
      simp [Query.AddBinding, Query.AddClause]
    rw [hlen, toksFrom_split b.query.bindings.length 0 vs.length, Nat.zero_add]

lemma prefix_escape_clean {c : Char} (hq : c ≠ '\"') (hd : c ≠ '.') {pre : String}
    (hpre : c ∉ pre.data) {t : String} (ht : c ∉ t.data) (a : Adapter) :
    c ∉ (pre ++ a.Escape t).data := by
  rw [String.data_append]
  intro hc
  rcases List.mem_append.mp hc with h4 | h4
  · exact hpre h4
  · exact escape_not_mem hq hd ht a h4

lemma bindings_length_AC (q : Query) (vs : List Value) (f : String) :
    ((q.AddBinding vs).AddClause f).bindings.length = q.bindings.length + vs.length := by
  simp [Query.AddBinding, Query.AddClause]

lemma bindings_length_ACC (q : Query) (vs : List Value) (f g : String) :
    (((q.AddBinding vs).AddClause f).AddClause g).bindings.length
      = q.bindings.length + vs.length := by
  simp [Query.AddBinding, Query.AddClause]

lemma map_escape_clean {c : Char} (hq : c ≠ '\"') (hd : c ≠ '.') {m : List (String × Value)}
    (h : ∀ kv ∈ m, StrClean kv.1) (hc : c = '$' ∨ c = '?') (a : Adapter) :
    ∀ s ∈ m.map (fun kv => a.Escape kv.1), c ∉ s.data := by
  intro s hs
  obtain ⟨kv, hkv, hkveq⟩ := List.mem_map.mp hs
  subst hkveq
  rcases hc with hc | hc
  · subst hc
    exact escape_not_mem hq hd ((h kv hkv).1) a
  · subst hc
    exact escape_not_mem hq hd ((h kv hkv).2) a

lemma alignedN_step {b : Builder} (hb : AlignedN b) {op : Op} (hop : op.Clean) :
    AlignedN (applyOp b op) := by
  obtain ⟨h1, h2, h3⟩ := hb
  cases op with
  | insertOp t =>
    exact alignedN_addClause ⟨h1, h2, h3⟩
      (prefix_escape_clean (by decide) (by decide) (by decide) hop.1 b.adapter)
  | updateOp t =>
    exact alignedN_addClause ⟨h1, h2, h3⟩
      (prefix_escape_clean (by decide) (by decide) (by decide) hop.1 b.adapter)
  | deleteOp t =>
    exact alignedN_addClause ⟨h1, h2, h3⟩
      (prefix_escape_clean (by decide) (by decide) (by decide) hop.1 b.adapter)
  | selectOp cols =>
    exact alignedN_addClause ⟨h1, h2, h3⟩
      (joined_clean (by decide) (by decide) (fun s hs => (hop s hs).1))
  | orderByOp es =>
    exact alignedN_addClause ⟨h1, h2, h3⟩
      (joined_clean (by decide) (by decide) (fun s hs => (hop s hs).1))
  | groupByOp cs =>
    exact alignedN_addClause ⟨h1, h2, h3⟩
      (joined_clean (by decide) (by decide) (fun s hs => (hop s hs).1))
  | havingOp es =>
    exact alignedN_addClause ⟨h1, h2, h3⟩
      (joined_clean (by decide) (by decide) (fun s hs => (hop s hs).1))
  | limitOp o cnt =>
    have hf : '$' ∉ (("LIMIT " ++ (⟨intChars cnt⟩ : String) ++ " OFFSET "
        ++ (⟨intChars o⟩ : String))).data := by
      rw [String.data_append, String.data_append, String.data_append]
      intro hc
      rcases List.mem_append.mp hc with h4 | h4
      · rcases List.mem_append.mp h4 with h5 | h5
        · rcases List.mem_append.mp h5 with h6 | h6
          · revert h6; decide
          · exact intChars_not_mem (by decide) (by decide) cnt h6
        · revert h5; decide
      · exact intChars_not_mem (by decide) (by decide) o h4
    exact alignedN_addClause ⟨h1, h2, h3⟩ hf
  | whereOp e =>
    show AlignedN (b.Where e [])
    unfold Builder.Where
    by_cases he : e = ""
    · rw [if_pos he]
      exact ⟨h1, h2, h3⟩
    · rw [if_neg he]
      have hq : (b.query.AddClause ("WHERE " ++ e)).AddBinding []
          = b.query.AddClause ("WHERE " ++ e) := by
        simp [Query.AddBinding]
      rw [hq]
      have hf : '$' ∉ (("WHERE " ++ e)).data := by
        rw [String.data_append]
        intro hc
        rcases List.mem_append.mp hc with h4 | h4
        · revert h4; decide
        · exact hop.1 h4
      exact alignedN_addClause ⟨h1, h2, h3⟩ hf
  | valuesOp m =>
    show AlignedN (b.Values m)
    have hv : b.Values m = { b with
        query := ((b.query.AddBinding (m.map (fun kv => kv.2))).AddClause
            ("(" ++ joinWith ", " (m.map (fun kv => b.adapter.Escape kv.1)) ++ ")")).AddClause
            ("VALUES (" ++ joinWith ", "
              (toksFrom b.adapter.placeholderCount (m.map (fun kv => kv.2)).length) ++ ")"),
        adapter := { b.adapter with
          placeholderCount := b.adapter.placeholderCount + (m.map (fun kv => kv.2)).length } } := by
      simp only [Builder.Values]
      rw [phN_numbered h1]
    rw [hv]
    refine ⟨h1, ?_, ?_⟩
    · show b.adapter.placeholderCount + (m.map (fun kv => kv.2)).length
        = (((b.query.AddBinding (m.map (fun kv => kv.2))).AddClause
            ("(" ++ joinWith ", " (m.map (fun kv => b.adapter.Escape kv.1)) ++ ")")).AddClause
            ("VALUES (" ++ joinWith ", "
              (toksFrom b.adapter.placeholderCount (m.map (fun kv => kv.2)).length) ++ ")")
          ).bindings.length
      rw [bindings_length_ACC, h2]
    · show phTokens (((b.query.AddBinding (m.map (fun kv => kv.2))).AddClause
            ("(" ++ joinWith ", " (m.map (fun kv => b.adapter.Escape kv.1)) ++ ")")).AddClause
            ("VALUES (" ++ joinWith ", "
              (toksFrom b.adapter.placeholderCount (m.map (fun kv => kv.2)).length) ++ ")"))
          = _
      rw [phTokens_addClause, phTokens_addClause, phTokens_addBinding]
      have hkeys : '$' ∉ (("(" ++ joinWith ", " (m.map (fun kv => b.adapter.Escape kv.1))
          ++ ")")).data := by
        rw [String.data_append]
        intro hc
        rcases List.mem_append.mp hc with h4 | h4
        · exact joined_clean (by decide) (by decide)
            (map_escape_clean (by decide) (by decide) hop (Or.inl rfl) b.adapter) h4
        · revert h4; decide
      rw [extractPH_clean hkeys, List.append_nil, extract_valuesClause, h3, h2,
        bindings_length_ACC,
        toksFrom_split b.query.bindings.length 0 (m.map (fun kv => kv.2)).length, Nat.zero_add]
  | setOp m =>
    show AlignedN (b.Set m)
    have hs : b.Set m = { b with
        adapter := { b.adapter with
          placeholderCount := b.adapter.placeholderCount + m.length },
        query := (b.query.AddBinding (m.map (fun kv => kv.2))).AddClause
            ("SET " ++ joinWith ", " (setUpdates b.adapter m b.adapter.placeholderCount)) } := by
      simp only [Builder.Set]
      rw [setLoop_numbered h1]
    rw [hs]
    refine ⟨h1, ?_, ?_⟩
    · show b.adapter.placeholderCount + m.length
        = ((b.query.AddBinding (m.map (fun kv => kv.2))).AddClause
            ("SET " ++ joinWith ", " (setUpdates b.adapter m b.adapter.placeholderCount))
          ).bindings.length
      rw [bindings_length_AC, h2, List.length_map]
    · show phTokens ((b.query.AddBinding (m.map (fun kv => kv.2))).AddClause
            ("SET " ++ joinWith ", " (setUpdates b.adapter m b.adapter.placeholderCount)))
          = _
      rw [phTokens_addClause, phTokens_addBinding]
      have hfrag : extractPH (("SET " ++ joinWith ", "
          (setUpdates b.adapter m b.adapter.placeholderCount))).data
          = toksFrom b.adapter.placeholderCount m.length := by
        rw [String.data_append]
        show extractGo ((("SET " : String)).data ++ (joinWith ", "
            (setUpdates b.adapter m b.adapter.placeholderCount)).data) none = _
        rw [extractGo_clean (by decide)]
        exact extract_setUpdates b.adapter m b.adapter.placeholderCount hop
      rw [hfrag, h3, h2, bindings_length_AC, List.length_map,
        toksFrom_split b.query.bindings.length 0 m.length, Nat.zero_add]
  | whereExprOp e =>
    cases e with
    | inE k vs => exact alignedN_whereIn ⟨h1, h2, h3⟩ hop vs " IN (" (by decide)
    | notInE k vs => exact alignedN_whereIn ⟨h1, h2, h3⟩ hop vs " NOT IN (" (by decide)
    | eqE k v => exact alignedN_whereCmp ⟨h1, h2, h3⟩ hop v " = " (by decide)
    | neqE k v => exact alignedN_whereCmp ⟨h1, h2, h3⟩ hop v " != " (by decide)
    | gtE k v => exact alignedN_whereCmp ⟨h1, h2, h3⟩ hop v " > " (by decide)
    | gteE k v => exact alignedN_whereCmp ⟨h1, h2, h3⟩ hop v " >= " (by decide)
    | stE k v => exact alignedN_whereCmp ⟨h1, h2, h3⟩ hop v " < " (by decide)
    | steE k v => exact alignedN_whereCmp ⟨h1, h2, h3⟩ hop v " <= " (by decide)

lemma alignedN_ops : ∀ (ops : List Op) (b : Builder), AlignedN b →
    (∀ op ∈ ops, op.Clean) → AlignedN (applyOps b ops) := by
  intro ops
  induction ops with
  | nil => intro b hb _; exact hb
  | cons op rest ih =>
    intro b hb h
    show AlignedN (applyOps (applyOp b op) rest)
    exact ih _ (alignedN_step hb (h op (by simp))) (fun o ho => h o (by simp [ho]))

lemma qmCount_addBinding (q : Query) (vs : List Value) :
    qmCount (q.AddBinding vs) = qmCount q := rfl

lemma bindings_length_ACB (q : Query) (vs : List Value) (f : String) :
    (((q.AddBinding vs).AddClause f).AddBinding []).bindings.length
      = q.bindings.length + vs.length := by
  simp [Query.AddBinding, Query.AddClause]

lemma sum_counts_one {l : List String} (h : ∀ s ∈ l, s.data.count '?' = 1) :
    (l.map (fun s => s.data.count '?')).sum = l.length := by
  induction l with
  | nil => rfl
  | cons x t ih =>
    simp only [List.map_cons, List.sum_cons, List.length_cons, h x (by simp),
      ih (fun s hs => h s (by simp [hs]))]
    omega

lemma count_qm_replJoin (sep : String) (hsep : '?' ∉ sep.data) (n : Nat) :
    (joinWith sep (List.replicate n "?")).data.count '?' = n := by
  rw [joinWith_count hsep, List.map_replicate,
    show (("?" : String)).data.count '?' = 1 from by decide]
  simp [List.sum_replicate]

lemma alignedQ_whereCmp {b : Builder} (hb : AlignedQ b) {key : String}
    (hk : StrClean key) (v : Value) (sep : String) (hsep : '?' ∉ sep.data) :
    AlignedQ (Builder.Where
      { b with
        query := b.query.AddBinding [v],
        adapter := ((b.adapter.Placeholder)).1 }
      (b.adapter.Escape key ++ sep ++ ((b.adapter.Placeholder)).2) []) := by
  obtain ⟨h1, h2⟩ := hb
  rw [placeholder_generic h1]
  unfold Builder.Where
  have hne : ¬(b.adapter.Escape key ++ sep ++ "?" = "") := by
    intro he
    have hd2 := congrArg String.data he
    rw [String.data_append, show (("?" : String)).data = ['?'] from rfl] at hd2
    simp at hd2
  rw [if_neg hne]
  refine ⟨h1, ?_⟩
  have hcf : (("WHERE " ++ (b.adapter.Escape key ++ sep ++ "?"))).data.count '?' = 1 := by
    rw [String.data_append, String.data_append, String.data_append, List.count_append,
      List.count_append, List.count_append,
      List.count_eq_zero.mpr (escape_not_mem (by decide) (by decide) hk.2 b.adapter),
      List.count_eq_zero.mpr hsep,
      show (("WHERE " : String)).data.count '?' = 0 from by decide,
      show (("?" : String)).data.count '?' = 1 from by decide]
  show qmCount (((b.query.AddBinding [v]).AddClause
        ("WHERE " ++ (b.adapter.Escape key ++ sep ++ "?"))).AddBinding [])
      = (((b.query.AddBinding [v]).AddClause
        ("WHERE " ++ (b.adapter.Escape key ++ sep ++ "?"))).AddBinding []).bindings.length
  rw [qmCount_addBinding, qmCount_addClause, qmCount_addBinding, hcf, h2,
    bindings_length_ACB]
  rfl

lemma alignedQ_whereIn {b : Builder} (hb : AlignedQ b) {key : String}
    (hk : StrClean key) (vs : List Value) (lit : String) (hlit : '?' ∉ lit.data) :
    AlignedQ (Builder.Where
      { b with
        query := b.query.AddBinding vs,
        adapter := ((b.adapter.Placeholders vs)).1 }
      (b.adapter.Escape key ++ lit ++ joinWith "," ((b.adapter.Placeholders vs)).2 ++ ")") []) := by
  obtain ⟨h1, h2⟩ := hb
  rw [show b.adapter.Placeholders vs = b.adapter.phN vs.length from rfl, phN_generic h1]
  unfold Builder.Where
  have hne : ¬(b.adapter.Escape key ++ lit
      ++ joinWith "," (List.replicate vs.length "?") ++ ")" = "") := by
    intro he
    have hd2 := congrArg String.data he
    rw [String.data_append] at hd2
    simp at hd2
  rw [if_neg hne]
  refine ⟨h1, ?_⟩
  have hcf : (("WHERE " ++ (b.adapter.Escape key ++ lit
      ++ joinWith "," (List.replicate vs.length "?") ++ ")"))).data.count '?' = vs.length := by
    rw [String.data_append, String.data_append, String.data_append, String.data_append,
      List.count_append, List.count_append, List.count_append, List.count_append,
      List.count_eq_zero.mpr (escape_not_mem (by decide) (by decide) hk.2 b.adapter),
      List.count_eq_zero.mpr hlit, count_qm_replJoin "," (by decide),
      show (("WHERE " : String)).data.count '?' = 0 from by decide,
      show ((")" : String)).data.count '?' = 0 from by decide]
    omega
  show qmCount (((b.query.AddBinding vs).AddClause
        ("WHERE " ++ (b.adapter.Escape key ++ lit
          ++ joinWith "," (List.replicate vs.length "?") ++ ")"))).AddBinding [])
      = (((b.query.AddBinding vs).AddClause
        ("WHERE " ++ (b.adapter.Escape key ++ lit
          ++ joinWith "," (List.replicate vs.length "?") ++ ")"))).AddBinding []).bindings.length
  rw [qmCount_addBinding, qmCount_addClause, qmCount_addBinding, hcf, h2,
    bindings_length_ACB]

lemma alignedQ_step {b : Builder} (hb : AlignedQ b) {op : Op} (hop : op.Clean) :
    AlignedQ (applyOp b op) := by
  obtain ⟨h1, h2⟩ := hb
  cases op with
  | insertOp t =>
    exact alignedQ_addClause ⟨h1, h2⟩
      (prefix_escape_clean (by decide) (by decide) (by decide) hop.2 b.adapter)
  | updateOp t =>
    exact alignedQ_addClause ⟨h1, h2⟩
      (prefix_escape_clean (by decide) (by decide) (by decide) hop.2 b.adapter)
  | deleteOp t =>
    exact alignedQ_addClause ⟨h1, h2⟩
      (prefix_escape_clean (by decide) (by decide) (by decide) hop.2 b.adapter)
  | selectOp cols =>
    exact alignedQ_addClause ⟨h1, h2⟩
      (joined_clean (by decide) (by decide) (fun s hs => (hop s hs).2))
  | orderByOp es =>
    exact alignedQ_addClause ⟨h1, h2⟩
      (joined_clean (by decide) (by decide) (fun s hs => (hop s hs).2))
  | groupByOp cs =>
    exact alignedQ_addClause ⟨h1, h2⟩
      (joined_clean (by decide) (by decide) (fun s hs => (hop s hs).2))
  | havingOp es =>
    exact alignedQ_addClause ⟨h1, h2⟩
      (joined_clean (by decide) (by decide) (fun s hs => (hop s hs).2))
  | limitOp o cnt =>
    have hf : '?' ∉ (("LIMIT " ++ (⟨intChars cnt⟩ : String) ++ " OFFSET "
        ++ (⟨intChars o⟩ : String))).data := by
      rw [String.data_append, String.data_append, String.data_append]
      intro hc
      rcases List.mem_append.mp hc with h4 | h4
      · rcases List.mem_append.mp h4 with h5 | h5
        · rcases List.mem_append.mp h5 with h6 | h6
          · revert h6; decide
          · exact intChars_not_mem (by decide) (by decide) cnt h6
        · revert h5; decide
      · exact intChars_not_mem (by decide) (by decide) o h4
    exact alignedQ_addClause ⟨h1, h2⟩ hf
  | whereOp e =>
    show AlignedQ (b.Where e [])
    unfold Builder.Where
    by_cases he : e = ""
    · rw [if_pos he]
      exact ⟨h1, h2⟩
    · rw [if_neg he]
      have hq : (b.query.AddClause ("WHERE " ++ e)).AddBinding []
          = b.query.AddClause ("WHERE " ++ e) := by
        simp [Query.AddBinding]
      rw [hq]
      have hf : '?' ∉ (("WHERE " ++ e)).data := by
        rw [String.data_append]
        intro hc
        rcases List.mem_append.mp hc with h4 | h4
        · revert h4; decide
        · exact hop.2 h4
      exact alignedQ_addClause ⟨h1, h2⟩ hf
  | valuesOp m =>
    show AlignedQ (b.Values m)
    have hv : b.Values m = { b with
        query := ((b.query.AddBinding (m.map (fun kv => kv.2))).AddClause
            ("(" ++ joinWith ", " (m.map (fun kv => b.adapter.Escape kv.1)) ++ ")")).AddClause
            ("VALUES (" ++ joinWith ", "
              (List.replicate (m.map (fun kv => kv.2)).length "?") ++ ")"),
        adapter := b.adapter } := by
      simp only [Builder.Values]
      rw [phN_generic h1]
    rw [hv]
    refine ⟨h1, ?_⟩
    have hkeys : '?' ∉ (("(" ++ joinWith ", " (m.map (fun kv => b.adapter.Escape kv.1))
        ++ ")")).data := by
      rw [String.data_append]
      intro hc
      rcases List.mem_append.mp hc with h4 | h4
      · exact joined_clean (by decide) (by decide)
          (map_escape_clean (by decide) (by decide) hop (Or.inr rfl) b.adapter) h4
      · revert h4; decide
    have hvc : (("VALUES (" ++ joinWith ", "
        (List.replicate (m.map (fun kv => kv.2)).length "?") ++ ")")).data.count '?'
        = (m.map (fun kv => kv.2)).length := by
      rw [String.data_append, String.data_append, List.count_append, List.count_append,
        count_qm_replJoin ", " (by decide),
        show (("VALUES (" : String)).data.count '?' = 0 from by decide,
        show ((")" : String)).data.count '?' = 0 from by decide]
      omega
    show qmCount (((b.query.AddBinding (m.map (fun kv => kv.2))).AddClause
          ("(" ++ joinWith ", " (m.map (fun kv => b.adapter.Escape kv.1)) ++ ")")).AddClause
          ("VALUES (" ++ joinWith ", "
            (List.replicate (m.map (fun kv => kv.2)).length "?") ++ ")"))
        = _
    rw [qmCount_addClause, qmCount_addClause, qmCount_addBinding,
      List.count_eq_zero.mpr hkeys, hvc, h2, bindings_length_ACC]
    omega
  | setOp m =>
    show AlignedQ (b.Set m)
    have hs : b.Set m = { b with
        adapter := b.adapter,
        query := (b.query.AddBinding (m.map (fun kv => kv.2))).AddClause
            ("SET " ++ joinWith ", "
              (m.map (fun kv => setKeyStr b.adapter kv.1 ++ " = " ++ "?"))) } := by
      simp only [Builder.Set]
      rw [setLoop_generic h1]
    rw [hs]
    refine ⟨h1, ?_⟩
    have hone : ∀ s ∈ m.map (fun kv => setKeyStr b.adapter kv.1 ++ " = " ++ "?"),
        s.data.count '?' = 1 := by
      intro s hs2
      obtain ⟨kv, hkv, hkveq⟩ := List.mem_map.mp hs2
      subst hkveq
      rw [String.data_append, String.data_append, List.count_append, List.count_append,
        List.count_eq_zero.mpr
          (setKeyStr_not_mem (by decide) (by decide) ((hop kv hkv).2) b.adapter),
        show ((" = " : String)).data.count '?' = 0 from by decide,
        show (("?" : String)).data.count '?' = 1 from by decide]
    have hsc : (("SET " ++ joinWith ", "
        (m.map (fun kv => setKeyStr b.adapter kv.1 ++ " = " ++ "?")))).data.count '?'
        = m.length := by
      rw [String.data_append, List.count_append, joinWith_count (by decide),
        sum_counts_one hone, List.length_map,
        show (("SET " : String)).data.count '?' = 0 from by decide]
      omega
    show qmCount ((b.query.AddBinding (m.map (fun kv => kv.2))).AddClause
          ("SET " ++ joinWith ", "
            (m.map (fun kv => setKeyStr b.adapter kv.1 ++ " = " ++ "?"))))
        = _
    rw [qmCount_addClause, qmCount_addBinding, hsc, h2, bindings_length_AC, List.length_map]
  | whereExprOp e =>
    cases e with
    | inE k vs => exact alignedQ_whereIn ⟨h1, h2⟩ hop vs " IN (" (by decide)
    | notInE k vs => exact alignedQ_whereIn ⟨h1, h2⟩ hop vs " NOT IN (" (by decide)
    | eqE k v => exact alignedQ_whereCmp ⟨h1, h2⟩ hop v " = " (by decide)
    | neqE k v => exact alignedQ_whereCmp ⟨h1, h2⟩ hop v " != " (by decide)
    | gtE k v => exact alignedQ_whereCmp ⟨h1, h2⟩ hop v " > " (by decide)
    | gteE k v => exact alignedQ_whereCmp ⟨h1, h2⟩ hop v " >= " (by decide)
    | stE k v => exact alignedQ_whereCmp ⟨h1, h2⟩ hop v " < " (by decide)
    | steE k v => exact alignedQ_whereCmp ⟨h1, h2⟩ hop v " <= " (by decide)

lemma alignedQ_ops : ∀ (ops : List Op) (b : Builder), AlignedQ b →
    (∀ op ∈ ops, op.Clean) → AlignedQ (applyOps b ops) := by
  intro ops
  induction ops with
  | nil => intro b hb _; exact hb
  | cons op rest ih =>
    intro b hb h
    show AlignedQ (applyOps (applyOp b op) rest)
    exact ih _ (alignedQ_step hb (h op (by simp))) (fun o ho => h o (by simp [ho]))

/-- C1: positional alignment.  For every sequence of clause-building
operations mirroring realistic usage (the placeholder-emitting operations
Values, Set, In, NotIn, Eq, NotEq, Gt, Gte, St, Ste each append their
matching bindings, as in src/builder.go), with caller-supplied strings free
of placeholder characters: on the numbered (postgres) dialect the
placeholder substrings of `SQL()`, left to right, are exactly the tokens
dollar-1 .. dollar-n where n is the length of `Bindings()` (so the Nth
placeholder, whose number is N, names the Nth binding), and on every
generic dialect the number of question-mark placeholders in `SQL()` equals
the length of `Bindings()`. -/
theorem c1_positional_alignment (ops : List Op) (h : ∀ op ∈ ops, op.Clean) :
    (extractPH ((applyOps (NewBuilder "postgres") ops).query.SQL.data)
        = toksFrom 0 ((applyOps (NewBuilder "postgres") ops).query.Bindings.length) ∧
      (toksFrom 0 ((applyOps (NewBuilder "postgres") ops).query.Bindings.length)).length
        = (applyOps (NewBuilder "postgres") ops).query.Bindings.length ∧
      (∀ i (hi : i < (toksFrom 0
          ((applyOps (NewBuilder "postgres") ops).query.Bindings.length)).length),
        (toksFrom 0 ((applyOps (NewBuilder "postgres") ops).query.Bindings.length)).get ⟨i, hi⟩
          = tokStr (i + 1))) ∧
    (∀ driver : String, driver ≠ "postgres" →
      ((applyOps (NewBuilder driver) ops).query.SQL.data.count '?')
        = (applyOps (NewBuilder driver) ops).query.Bindings.length) := by
  constructor
  · have hfin := alignedN_ops ops (NewBuilder "postgres") ⟨by decide, rfl, rfl⟩ h
    obtain ⟨hd, hc, ht⟩ := hfin
    refine ⟨?_, toksFrom_length 0 _, ?_⟩
    · exact (extract_joinWith _).trans ht
    · intro i hi
      rw [toksFrom_getElem _ 0 i hi, Nat.zero_add]
  · intro driver hdrv
    have hinit : AlignedQ (NewBuilder driver) := by
      refine ⟨?_, rfl⟩
      show (NewAdapter driver).dialect = Dialect.generic
      simp [NewAdapter, hdrv]
    have hfin := alignedQ_ops ops (NewBuilder driver) hinit h
    obtain ⟨hd, hc⟩ := hfin
    show (joinWith " " ((applyOps (NewBuilder driver) ops).query.clauses)).data.count '?' = _
    rw [joinWith_count (by decide)]
    exact hc

/-- Witness for C1 on a concrete run mixing Values, Set, an In expression
inside Where and a plain clause, on both dialects: the postgres tokens come
out as dollar-1 .. dollar-5 and the mysql run emits five question marks,
matching the five bindings. -/
theorem c1_positional_alignment_witness :
    Op.Clean (Op.insertOp "t") ∧
    Op.Clean (Op.valuesOp [("a", Value.int 1), ("b", Value.int 2)]) ∧
    Op.Clean (Op.setOp [("c", Value.int 3)]) ∧
    Op.Clean (Op.whereExprOp (Expr.inE "d" [Value.int 4, Value.int 5])) ∧
    extractPH ((applyOps (NewBuilder "postgres") [Op.insertOp "t",
        Op.valuesOp [("a", Value.int 1), ("b", Value.int 2)],
        Op.setOp [("c", Value.int 3)],
        Op.whereExprOp (Expr.inE "d" [Value.int 4, Value.int 5])]).query.SQL.data)
      = ["$1", "$2", "$3", "$4", "$5"] ∧
    (applyOps (NewBuilder "postgres") [Op.insertOp "t",
        Op.valuesOp [("a", Value.int 1), ("b", Value.int 2)],
        Op.setOp [("c", Value.int 3)],
        Op.whereExprOp (Expr.inE "d" [Value.int 4, Value.int 5])]).query.Bindings
      = [Value.int 1, Value.int 2, Value.int 3, Value.int 4, Value.int 5] ∧
    (applyOps (NewBuilder "mysql") [Op.insertOp "t",
        Op.valuesOp [("a", Value.int 1), ("b", Value.int 2)],
        Op.setOp [("c", Value.int 3)],
        Op.whereExprOp (Expr.inE "d" [Value.int 4, Value.int 5])]).query.SQL.data.count '?'
      = 5 := by
  refine ⟨by decide, by decide, by decide, by decide, ?_, by decide, ?_⟩
  · have h := c1_positional_alignment [Op.insertOp "t",
        Op.valuesOp [("a", Value.int 1), ("b", Value.int 2)],
        Op.setOp [("c", Value.int 3)],
        Op.whereExprOp (Expr.inE "d" [Value.int 4, Value.int 5])] (by decide)
    rw [h.1.1]
    decide
  · have h := c1_positional_alignment [Op.insertOp "t",
        Op.valuesOp [("a", Value.int 1), ("b", Value.int 2)],
        Op.setOp [("c", Value.int 3)],
        Op.whereExprOp (Expr.inE "d" [Value.int 4, Value.int 5])] (by decide)
    rw [h.2 "mysql" (by decide)]
    decide

/-- Witness for C10 on the key "a.b.c": the rendered fragment keeps only
"a" and the escaped "b" while the binding for the value is appended. -/
theorem c10_set_multidot_witness :
    (('.' ∉ ("a" : String).data) ∧ ('.' ∉ ("b" : String).data) ∧
      ("a.b.c" : String).data
        = ("a" : String).data ++ '.' :: (("b" : String).data ++ '.' :: ("c" : String).data)) ∧
    (((NewBuilder "postgres").SetEscaping true).Set [("a.b.c", Value.int 7)]).query.clauses
      = ["SET a.\"b\" = $1"] ∧
    (((NewBuilder "postgres").SetEscaping true).Set [("a.b.c", Value.int 7)]).query.bindings
      = [Value.int 7] := by
  have h := c10_set_multidot ((NewBuilder "postgres").SetEscaping true) "a" "b" "c" "a.b.c"
    (Value.int 7) (by decide) (by decide) (by decide)
  refine ⟨⟨by decide, by decide, by decide⟩, ?_, ?_⟩
  · rw [h.2]
    decide
  · rw [h.1]
    decide

end QB
